import Mathlib

/-!
Verification development for the EC inbox analysis engine
(`inbox_analyser.py`): text normalizers, temporal normalizer and record
preprocessor, category classifier, and chatbot-addressability scorer.

Modelling conventions:
* Python strings are `String` / `List Char`; a value that may be
  `None`/`NaN` is an `Option String` (or `Option Timestamp`).
* Python floats are modelled as `ℚ` (all confidence arithmetic in the
  source is exact decimal/small-fraction arithmetic).
* The regular expressions of the two static rule tables are embedded as a
  small first-order AST (`RE`) covering exactly the constructs the tables
  use (literals, `\b`, `\s*`, `.*`, character classes, alternation,
  optional groups), with a backtracking matcher `reSearch` implementing
  `re.search` existence semantics.
* Character classes (`\w`, case mapping) are modelled over ASCII; every
  concrete text appearing in the rule tables and in the claims is ASCII.
-/

/-- Python `\s` / `str.strip` whitespace set (codepoints). -/
def isPySpace (c : Char) : Bool :=
  (9 ≤ c.toNat && c.toNat ≤ 13) || (28 ≤ c.toNat && c.toNat ≤ 32) ||
  c.toNat == 0x85 || c.toNat == 0xa0 || c.toNat == 0x1680 ||
  (0x2000 ≤ c.toNat && c.toNat ≤ 0x200a) || c.toNat == 0x2028 ||
  c.toNat == 0x2029 || c.toNat == 0x202f || c.toNat == 0x205f ||
  c.toNat == 0x3000

/-- Python `\w` word characters (ASCII model): alphanumerics and `_`. -/
def isWordChar (c : Char) : Bool :=
  (48 ≤ c.toNat && c.toNat ≤ 57) || (65 ≤ c.toNat && c.toNat ≤ 90) ||
  (97 ≤ c.toNat && c.toNat ≤ 122) || c.toNat == 95

/-- Python `str.lower` on a single character (ASCII model). -/
def lowerChar (c : Char) : Char :=
  if 65 ≤ c.toNat ∧ c.toNat ≤ 90 then Char.ofNat (c.toNat + 32) else c

/-- The character substitution of `re.sub(r"[^\w\s]", " ", text)`:
non-word, non-whitespace characters become a space. -/
def replBasic (c : Char) : Char :=
  if isWordChar c || isPySpace c then c else ' '

/-- The character set kept by `re.sub(r"[^a-z0-9@._/%$ -]", "", text)`
in `clean_text_chatbot`. -/
def allowedChatbot (c : Char) : Bool :=
  (97 ≤ c.toNat && c.toNat ≤ 122) || (48 ≤ c.toNat && c.toNat ≤ 57) ||
  c.toNat == 64 || c.toNat == 46 || c.toNat == 95 || c.toNat == 47 ||
  c.toNat == 37 || c.toNat == 36 || c.toNat == 32 || c.toNat == 45

/-- `re.sub(r"\s+", " ", text)`: collapse each maximal run of whitespace
to a single space.  The flag records whether we are inside a run. -/
def collapseWs : Bool → List Char → List Char
  | _, [] => []
  | inRun, c :: t =>
    if isPySpace c then
      if inRun then collapseWs true t else ' ' :: collapseWs true t
    else c :: collapseWs false t

/-- Drop trailing whitespace (the right half of Python `str.strip`). -/
def dropEndWs : List Char → List Char
  | [] => []
  | c :: t =>
    match dropEndWs t with
    | [] => if isPySpace c then [] else [c]
    | d :: m => c :: d :: m

/-- Python `str.strip()`: drop leading and trailing whitespace. -/
def stripWs (l : List Char) : List Char :=
  dropEndWs (l.dropWhile isPySpace)

/-- `clean_text_basic` from the source: `""` for null input, otherwise
lowercase, collapse whitespace runs, replace non-word non-space
characters by a space, and strip. -/
def clean_text_basic (text : Option String) : String :=
  match text with
  | none => ""
  | some s =>
    String.mk (stripWs (List.map replBasic (collapseWs false (s.toList.map lowerChar))))

/-- `clean_text_chatbot` from the source: `""` for non-string input,
otherwise lowercase, collapse whitespace runs, remove characters outside
`[a-z0-9@._/%$ -]`, and strip. -/
def clean_text_chatbot (text : Option String) : String :=
  match text with
  | none => ""
  | some s =>
    String.mk (stripWs ((collapseWs false (s.toList.map lowerChar)).filter allowedChatbot))

/-!  A first-order regular-expression AST covering exactly the constructs
used by the two rule tables of the source. -/

/-- Regular expressions of the rule tables: literal characters,
`[...]` classes over listed characters, concatenation, alternation,
the empty pattern, `\s*`, `.*` (`.` excludes newline), and `\b`. -/
inductive RE where
  | eps : RE
  | chr : Char → RE
  | cls : List Char → RE
  | seq : RE → RE → RE
  | alt : RE → RE → RE
  | spaceStar : RE
  | anyStar : RE
  | wordB : RE
deriving DecidableEq

/-- Word-character test on an optional character (edges count as
non-word for `\b`). -/
def optIsWord : Option Char → Bool
  | none => false
  | some c => isWordChar c

/-- All ways a `p*` construct can consume a prefix of the input; each
result is the previous character together with the remaining input. -/
def starRun (p : Char → Bool) (prev : Option Char) : List Char → List (Option Char × List Char)
  | [] => [(prev, [])]
  | c :: t => (prev, c :: t) :: (if p c then starRun p (some c) t else [])

/-- Backtracking matcher: all ways `re` can match a prefix of `l`, given
the character `prev` just before the current position.  Each result is
the last consumed character and the remaining input. -/
def reRun : RE → Option Char → List Char → List (Option Char × List Char)
  | .eps, prev, l => [(prev, l)]
  | .chr _, _, [] => []
  | .chr c, _, x :: xs => if x == c then [(some x, xs)] else []
  | .cls _, _, [] => []
  | .cls cs, _, x :: xs => if cs.contains x then [(some x, xs)] else []
  | .seq a b, prev, l => (reRun a prev l).flatMap (fun pr => reRun b pr.1 pr.2)
  | .alt a b, prev, l => reRun a prev l ++ reRun b prev l
  | .spaceStar, prev, l => starRun isPySpace prev l
  | .anyStar, prev, l => starRun (fun c => !(c == '\n')) prev l
  | .wordB, prev, l => if optIsWord prev != optIsWord l.head? then [(prev, l)] else []

/-- Does `re` match starting at the current position (with `prev` the
preceding character), or at any later position? -/
def searchFrom (re : RE) : Option Char → List Char → Bool
  | prev, [] => !(reRun re prev []).isEmpty
  | prev, c :: t => !(reRun re prev (c :: t)).isEmpty || searchFrom re (some c) t

/-- `bool(p.search(text))`: does `re` match anywhere in `l`? -/
def reSearch (re : RE) (l : List Char) : Bool :=
  searchFrom re none l

/-- Literal pattern built from a string. -/
def lit (s : String) : RE :=
  s.toList.foldr (fun c r => RE.seq (RE.chr c) r) RE.eps

/-- Concatenation of a list of patterns. -/
def reSeqL (l : List RE) : RE :=
  l.foldr RE.seq RE.eps

/-- A whole-word literal: `\b...\b`. -/
def wlit (s : String) : RE :=
  RE.seq RE.wordB (RE.seq (lit s) RE.wordB)

/-- Python `min(a, b)` on exact numbers. -/
def pyMin (a b : ℚ) : ℚ :=
  if a ≤ b then a else b

/-- Strong and weak pattern lists of one `(category, subcategory)` entry
of `CATEGORY_MAP`. -/
structure SubRules where
  strong : List RE
  weak : List RE
deriving DecidableEq

/-- The hierarchical category rule table `CATEGORY_MAP` of the source, in
its insertion order, with each regex transcribed into the `RE` AST
(patterns are matched against already-lowercased text, so the
case-insensitive compilation is reflected by lowercase literals). -/
def CATEGORY_MAP : List (String × List (String × SubRules)) := [
  ("Anti-Bribery and Anti-Corruption (ABAC)", [
    ("ISO 37001",
      ⟨[reSeqL [.wordB, lit "iso", .spaceStar, lit "37001", .wordB],
        wlit "audit",
        reSeqL [.wordB, lit "anti", .cls ['-', ' '], lit "bribery", .wordB]],
       [wlit "certification", wlit "compliance"]⟩),
    ("Gifts & Entertainment",
      ⟨[wlit "gift", wlit "gifts", wlit "declaration", wlit "offered", wlit "received"],
       [wlit "meal", wlit "token", wlit "hospitality"]⟩),
    ("ABAC eLearning / Training",
      ⟨[reSeqL [.wordB, lit "abac", .wordB, .anyStar, .alt (lit "training") (lit "elearning")],
        wlit "mandatory training"],
       [wlit "procedures"]⟩),
    ("Third-Party Due Diligence / Screening",
      ⟨[wlit "dow jones", wlit "screening",
        reSeqL [.wordB, lit "third", .cls ['-', ' '], lit "party", .wordB],
        wlit "due diligence", wlit "vendor screening", wlit "due diligence tool"],
       [wlit "check", wlit "monitoring"]⟩),
    ("Charitable Donations, Sponsorship & Political Contributions",
      ⟨[wlit "sponsorship", wlit "donation", wlit "charitable"],
       [wlit "csr"]⟩)]),
  ("Conflict of Interests (COI)", [
    ("COI Declaration",
      ⟨[wlit "conflict of interest", wlit "coi", wlit "interest declaration"],
       [wlit "family relationship"]⟩),
    ("External Appointments",
      ⟨[wlit "appointment", wlit "board", wlit "external role"],
       [wlit "additional role"]⟩)]),
  ("Data Protection", [
    ("Data Incident / Breach",
      ⟨[wlit "data breach", wlit "phishing", wlit "ransomware", wlit "cyber incident"],
       [wlit "security incident", wlit "personal data"]⟩),
    ("Data Governance & Classification",
      ⟨[wlit "data classification", wlit "gdpr", wlit "governance"],
       [wlit "sensitive information"]⟩)]),
  ("Interested Person Transactions (IPT)", [
    ("IPT Policies & Procedures",
      ⟨[reSeqL [.wordB, lit "ipt", .wordB, .anyStar, lit "policy"],
        reSeqL [.wordB, lit "ipt", .wordB, .anyStar, lit "procedure"]],
       []⟩),
    ("IPT Portal / System Issues",
      ⟨[wlit "ipt portal", wlit "ipt system", wlit "access"],
       [wlit "login issue"]⟩),
    ("IPT Refreshers / Training",
      ⟨[wlit "ipt training", wlit "ipt refresher"],
       []⟩)]),
  ("Sanctions", [
    ("Sanction Risk Framework",
      ⟨[wlit "sanction", wlit "risk assessment", wlit "compliance"],
       []⟩),
    ("Sanctions Policies & Procedures",
      ⟨[wlit "sanctions operating", wlit "sanctions policy", wlit "review sanctions"],
       []⟩)])]

/-- The `(category, subcategory, rules)` pairs of `CATEGORY_MAP`, in the
iteration order of the source's nested loops. -/
def pairsL : List (String × String × SubRules) :=
  CATEGORY_MAP.flatMap (fun cs => cs.2.map (fun sr => (cs.1, sr.1, sr.2)))

/-- `sum(bool(p.search(text)) for p in patterns)`: the number of distinct
patterns of the list that match somewhere in the text. -/
def countHits (ps : List RE) (t : List Char) : Nat :=
  (ps.filter (fun p => reSearch p t)).length

/-- `strong_hits` of one `(category, subcategory)` entry. -/
def strongHits (r : SubRules) (t : List Char) : Nat :=
  countHits r.strong t

/-- `weak_hits` of one `(category, subcategory)` entry. -/
def weakHits (r : SubRules) (t : List Char) : Nat :=
  countHits r.weak t

/-- `score = strong_hits * 3 + weak_hits` for one pair. -/
def rawScore (t : List Char) (p : String × String × SubRules) : Nat :=
  strongHits p.2.2 t * 3 + weakHits p.2.2 t

/-- The `(cat, sub, "strong"/"weak")` value stored in `best` when a pair
becomes the best-scoring one. -/
def bestEntry (t : List Char) (p : String × String × SubRules) : String × String × String :=
  (p.1, p.2.1, if 0 < strongHits p.2.2 t then "strong" else "weak")

/-- The selection loop of `map_category`: track the best `(cat, sub,
label)` and its score, updating only on a strictly larger score. -/
def bestLoop (t : List Char) : List (String × String × SubRules) →
    Option (String × String × String) → Nat → Option (String × String × String) × Nat
  | [], best, bestScore => (best, bestScore)
  | p :: rest, best, bestScore =>
    if bestScore < rawScore t p then bestLoop t rest (some (bestEntry t p)) (rawScore t p)
    else bestLoop t rest best bestScore

/-- `map_category` from the source: clean the text, scan every
`(category, subcategory)` pair in table order keeping the best strictly
improving score, and return `Not Detected` if nothing scored, else the
winner with confidence `min(1, best_score / 5)`. -/
def map_category (text : Option String) : String × String × String × ℚ :=
  match bestLoop (clean_text_basic text).toList pairsL none 0 with
  | (none, _) => ("Not Detected", "Not Detected", "Not Detected", 0)
  | (some (cat, sub, label), bestScore) => (cat, sub, label, pyMin 1 ((bestScore : ℚ) / 5))

/-- The automation pattern table `PATTERNS` of the source: group name,
integer weight, and patterns, in insertion order. -/
def PATTERNS : List (String × Int × List RE) := [
  ("high_confidence", 3, [
    wlit "how to", wlit "how do i", wlit "where do i",
    wlit "process", wlit "procedure",
    wlit "reset password", wlit "login issue", wlit "access denied",
    wlit "activate account", wlit "check status",
    wlit "submit form", wlit "form attached", wlit "submit declaration",
    wlit "g&e",
    reSeqL [.wordB, lit "gift", .alt (.chr 's') .eps, lit " & entertainment", .wordB],
    wlit "conflict of interest", wlit "coi",
    wlit "training deadline", wlit "mandatory training",
    wlit "ipt submission", wlit "annual declaration"]),
  ("medium_confidence", 1, [
    wlit "question", wlit "clarification", wlit "help",
    wlit "support", wlit "inquiry", wlit "issue",
    wlit "policy", wlit "update procedure", wlit "workflow",
    wlit "compliance",
    wlit "request for check", wlit "due diligence",
    wlit "screening", wlit "sanctions"]),
  ("borderline_human_indicators", -1, [
    wlit "please advise", wlit "need approval",
    wlit "request approval", wlit "confirm",
    wlit "exception", wlit "escalation", wlit "waiver",
    wlit "case assessment"]),
  ("human_required", -3, [
    wlit "legal", wlit "complaint", wlit "confidential",
    wlit "resignation",
    wlit "bribery", wlit "corruption",
    wlit "disciplinary", wlit "misconduct",
    wlit "retaliation",
    reSeqL [.wordB, lit "whistleblow", .alt (lit "ing") .eps, .wordB]])]

/-- The accumulation loop of `compute_score` over a cleaned text: each
pattern that matches adds its group's weight once. -/
def scoreOfText (text : List Char) : Int :=
  PATTERNS.foldl
    (fun acc g => g.2.2.foldl (fun a p => if reSearch p text then a + g.2.1 else a) acc) 0

/-- `compute_score` on genuine strings: clean `subject + " " + body` with
`clean_text_chatbot` and accumulate the weighted pattern hits. -/
def compute_score (subject body : String) : Int :=
  scoreOfText (clean_text_chatbot (some (subject ++ " " ++ body))).toList

/-- Python string concatenation `a + b` under dynamic typing: a null
(`None`/`NaN`) operand raises `TypeError`. -/
def pyStrAdd : Option String → Option String → Except String (Option String)
  | some a, some b => .ok (some (a ++ b))
  | _, _ => .error "TypeError: unsupported operand type(s) for +"

/-- `compute_score` as executed by Python on possibly-null inputs: the
concatenation `subject + " " + body` happens before `clean_text_chatbot`
is called, so it is the concatenation that sees null operands. -/
def compute_score_py (subject body : Option String) : Except String Int :=
  (pyStrAdd subject (some " ")).bind fun t1 =>
    (pyStrAdd t1 body).map fun t2 => scoreOfText (clean_text_chatbot t2).toList

/-- `chatbot_addressability` from the source, on the `(subject, body)`
fields of a row: threshold the score into a decision and confidence. -/
def chatbot_addressability (subject body : String) : String × ℚ × Int :=
  let score := compute_score subject body
  if 2 ≤ score then ("Yes", pyMin 1 ((score : ℚ) / 4), score)
  else if score ≤ -1 then ("No", 1/10, score)
  else ("No", 3/10, score)

/-- Decision table as worded in the spec (§4.5): the decision is a
function of the integer score alone, with thresholds `score >= 2` →
`("Yes", min(1.0, score/4), score)`, `score <= -1` → `("No", 0.1,
score)`, otherwise `("No", 0.3, score)`. -/
def spec_decision (score : Int) : String × ℚ × Int :=
  if 2 ≤ score then ("Yes", pyMin 1 ((score : ℚ) / 4), score)
  else if score ≤ -1 then ("No", 1/10, score)
  else ("No", 3/10, score)

/-- A parsed calendar instant (`pd.Timestamp`): the calendar year, and
an opaque sub-year component irrelevant to the year-based filters. -/
structure Timestamp where
  year : Int
  rest : Nat
deriving DecidableEq

/-- `clean_datetime` from the source on one already-parsed entry:
`pd.to_datetime(..., errors="coerce")` yields `none` for unparseable
input, and the mask turns any value with year outside `[2000, 2030]`
into `none` (`NaT`). -/
def clean_datetime (t : Option Timestamp) : Option Timestamp :=
  match t with
  | none => none
  | some ts => if ts.year < 2000 || 2030 < ts.year then none else some ts

/-- One row of the inbox dataset: the four required columns
(`DateTimeSent`, `DateTimeReceived`, `Subject`, `Body.TextBody`). -/
structure EmailRecord where
  sentAt : Option Timestamp
  receivedAt : Option Timestamp
  subject : Option String
  body : Option String
deriving DecidableEq

/-- Apply `clean_datetime` to both timestamp columns of a row. -/
def cleanRecord (r : EmailRecord) : EmailRecord :=
  { r with sentAt := clean_datetime r.sentAt, receivedAt := clean_datetime r.receivedAt }

/-- Does `hay` start with `needle`? -/
def leadsWith : List Char → List Char → Bool
  | [], _ => true
  | _ :: _, [] => false
  | c :: n, d :: h => c == d && leadsWith n h

/-- Substring containment on character lists. -/
def containsSub (needle : List Char) : List Char → Bool
  | [] => needle.isEmpty
  | d :: h => leadsWith needle (d :: h) || containsSub needle h

/-- The auto-reply / spam denylist `exclude_terms` of `preprocess`. -/
def exclude_terms : List String :=
  ["respuesta automática", "automatic reply", "automatische antwort",
   "réponse automatique", "quarantine", "undeliverable", "test"]

/-- `df["Subject"].str.contains(pattern, na=False)` for the compiled
case-insensitive alternation of `exclude_terms`: a null subject counts
as no match (`na=False`). -/
def matchesNoise (subj : Option String) : Bool :=
  match subj with
  | none => false
  | some s => exclude_terms.any
      (fun term => containsSub (term.toList.map lowerChar) (s.toList.map lowerChar))

/-- `drop_duplicates` keeping the first occurrence of each row. -/
def dedupAux (seen : List EmailRecord) : List EmailRecord → List EmailRecord
  | [] => []
  | r :: rs => if r ∈ seen then dedupAux seen rs else r :: dedupAux (r :: seen) rs

/-- `preprocess` from the source: clean both timestamp columns, drop
rows with both timestamps absent, keep rows received in 2025, drop exact
duplicates, and drop rows whose subject matches the noise denylist. -/
def preprocess (df : List EmailRecord) : List EmailRecord :=
  (dedupAux []
    (((df.map cleanRecord).filter
        (fun r => !(r.sentAt.isNone && r.receivedAt.isNone))).filter
      (fun r =>
        match r.receivedAt with
        | some ts => ts.year == 2025
        | none => false))).filter
    (fun r => !matchesNoise r.subject)

/-- The maximum raw score over a list of `(category, subcategory)`
pairs. -/
def maxOver (t : List Char) (L : List (String × String × SubRules)) : Nat :=
  (L.map (rawScore t)).foldr max 0

/-- The maximum raw score over the whole rule table. -/
def maxRaw (t : List Char) : Nat :=
  maxOver t pairsL

/-- The first pair in table order attaining the maximum raw score. -/
def firstBest (t : List Char) : Option (String × String × SubRules) :=
  pairsL.find? (fun p => rawScore t p == maxRaw t)

/-- The first character, if any, is not whitespace. -/
def headNotSpace : List Char → Bool
  | [] => true
  | c :: _ => !isPySpace c

/-- The last character, if any, is not whitespace. -/
def lastNotSpace : List Char → Bool
  | [] => true
  | [c] => !isPySpace c
  | _ :: c :: t => lastNotSpace (c :: t)

/-- No two adjacent whitespace characters. -/
def noSpaceRun : List Char → Bool
  | [] => true
  | c :: t => (!isPySpace c || headNotSpace t) && noSpaceRun t

/-- The common shape of both text cleaners: lowercase, collapse
whitespace, apply a character-level step `h`, strip.  `clean_text_basic`
is `cleanCore (List.map replBasic)` and `clean_text_chatbot` is
`cleanCore (List.filter allowedChatbot)`. -/
def cleanCore (h : List Char → List Char) (l : List Char) : List Char :=
  stripWs (h (collapseWs false (l.map lowerChar)))

/-- Characters that can appear in the output of `clean_text_basic`:
non-uppercase word characters (digits, lowercase letters, underscore)
and the plain space. -/
def goodBasic (c : Char) : Bool :=
  (48 ≤ c.toNat && c.toNat ≤ 57) || (97 ≤ c.toNat && c.toNat ≤ 122) ||
  c.toNat == 95 || c.toNat == 32

/-! Theorems. -/

theorem char_toNat_ofNat (n : Nat) (h : n.isValidChar) : (Char.ofNat n).toNat = n := by
  unfold Char.ofNat
  rw [dif_pos h]
  unfold Char.ofNatAux Char.toNat
  simp [UInt32.toNat]

theorem char_eq_of_toNat_eq {c d : Char} (h : c.toNat = d.toNat) : c = d := by
  cases c with
  | mk cv cvalid =>
    cases d with
    | mk dv dvalid =>
      have hv : cv = dv := by
        have : cv.toNat = dv.toNat := h
        exact UInt32.toNat.inj this
      subst hv
      rfl

theorem lowerChar_notUpper (c : Char) :
    ¬(65 ≤ (lowerChar c).toNat ∧ (lowerChar c).toNat ≤ 90) := by
  unfold lowerChar
  by_cases h : 65 ≤ c.toNat ∧ c.toNat ≤ 90
  · rw [if_pos h]
    have hv : (c.toNat + 32).isValidChar := by
      unfold Nat.isValidChar
      omega
    rw [char_toNat_ofNat _ hv]
    omega
  · rw [if_neg h]
    exact h

theorem lowerChar_eq_self {c : Char} (h : ¬(65 ≤ c.toNat ∧ c.toNat ≤ 90)) :
    lowerChar c = c := by
  unfold lowerChar
  exact if_neg h

theorem map_lowerChar_eq_self {l : List Char}
    (h : ∀ c ∈ l, ¬(65 ≤ c.toNat ∧ c.toNat ≤ 90)) : l.map lowerChar = l := by
  induction l with
  | nil => rfl
  | cons c t ih =>
    simp only [List.map_cons]
    rw [lowerChar_eq_self (h c (by simp)), ih (fun d hd => h d (by simp [hd]))]

/-- C1: in the source, `compute_score` evaluates `subject + " " + body`
before `clean_text_chatbot` can replace a null value by `""`, so a null
subject or body raises `TypeError` instead of returning a normal result;
the null guard inside `clean_text_chatbot` itself is unreachable on that
path (last conjunct), and only fully non-null inputs produce a score. -/
theorem compute_score_raises_on_null_input :
    compute_score_py none (some "hello")
        = .error "TypeError: unsupported operand type(s) for +" ∧
    compute_score_py (some "Status update") none
        = .error "TypeError: unsupported operand type(s) for +" ∧
    clean_text_chatbot none = "" ∧
    compute_score_py (some "question") (some "help") = .ok (compute_score "question" "help") :=
  ⟨rfl, rfl, rfl, rfl⟩

/-- C4: the automation decision of `chatbot_addressability` is a function
of the integer score alone, equal to the spec's threshold table; in that
table a score of exactly 2 yields "Yes" and a score of exactly 1 yields
"No". -/
theorem chatbot_addressability_matches_spec_thresholds (subject body : String) :
    chatbot_addressability subject body = spec_decision (compute_score subject body) ∧
    (spec_decision 2).1 = "Yes" ∧ (spec_decision 2).2.1 = 1/2 ∧
    (spec_decision 1).1 = "No" ∧ (spec_decision 1).2.1 = 3/10 ∧
    (spec_decision (-1)).1 = "No" ∧ (spec_decision (-1)).2.1 = 1/10 ∧
    (spec_decision 3).1 = "Yes" ∧ (spec_decision 0).1 = "No" := by
  refine ⟨rfl, ?_, ?_, ?_, ?_, ?_, ?_, ?_, ?_⟩ <;> norm_num [spec_decision, pyMin]

/-- C7: for empty or null body text the classifier returns exactly
`("Not Detected", "Not Detected", "Not Detected", 0.0)`. -/
theorem map_category_empty_not_detected :
    map_category (some "") = ("Not Detected", "Not Detected", "Not Detected", 0) ∧
    map_category none = ("Not Detected", "Not Detected", "Not Detected", 0) := by
  decide

set_option maxHeartbeats 4000000 in
/-- C8: the ABAC gift-declaration example body is classified as category
`Anti-Bribery and Anti-Corruption (ABAC)`, subcategory
`Gifts & Entertainment`, with strength `strong`. -/
theorem map_category_abac_gift_example :
    (map_category (some "Please find attached the ABAC gift declaration for the mooncake received from vendor X")).1
        = "Anti-Bribery and Anti-Corruption (ABAC)" ∧
    (map_category (some "Please find attached the ABAC gift declaration for the mooncake received from vendor X")).2.1
        = "Gifts & Entertainment" ∧
    (map_category (some "Please find attached the ABAC gift declaration for the mooncake received from vendor X")).2.2.1
        = "strong" := by
  decide

theorem spec_decision_conf_cases (n : Int) :
    ((spec_decision n).2.1 = 1/10 ∨ (spec_decision n).2.1 = 3/10 ∨
      (1/2 ≤ (spec_decision n).2.1 ∧ (spec_decision n).2.1 ≤ 1)) ∧
    (spec_decision n).2.1 ≠ 0 ∧
    ((spec_decision n).1 = "Yes" → 1/2 ≤ (spec_decision n).2.1) := by
  unfold spec_decision pyMin
  split_ifs with h1 h2
  · simp only
    refine ⟨Or.inr (Or.inr ⟨le_refl _ |>.trans (by norm_num), le_refl 1⟩), by norm_num, fun _ => by norm_num⟩
  · have hn : (2 : ℚ) ≤ (n : Int) := by exact_mod_cast h1
    have hlow : (1:ℚ)/2 ≤ (n : ℚ) / 4 := by
      rw [div_le_div_iff₀ (by norm_num) (by norm_num)]
      linarith
    have hhigh : (n : ℚ) / 4 ≤ 1 := le_of_not_le h2
    refine ⟨Or.inr (Or.inr ⟨hlow, hhigh⟩), ?_, fun _ => hlow⟩
    intro h0
    have hz : (n : ℚ) / 4 = 0 := h0
    rw [hz] at hlow
    norm_num at hlow
  · exact ⟨Or.inl rfl, by norm_num, fun h => by simp at h⟩
  · exact ⟨Or.inr (Or.inl rfl), by norm_num, fun h => by simp at h⟩

/-- C10: the confidence returned by the automation scorer is always
`0.1`, `0.3`, or a value in `[0.5, 1]`; it is never `0`, and whenever the
decision is "Yes" the confidence is at least `0.5`. -/
theorem chatbot_confidence_range (subject body : String) :
    ((chatbot_addressability subject body).2.1 = 1/10 ∨
      (chatbot_addressability subject body).2.1 = 3/10 ∨
      (1/2 ≤ (chatbot_addressability subject body).2.1 ∧
        (chatbot_addressability subject body).2.1 ≤ 1)) ∧
    (chatbot_addressability subject body).2.1 ≠ 0 ∧
    ((chatbot_addressability subject body).1 = "Yes" →
      1/2 ≤ (chatbot_addressability subject body).2.1) := by
  have h : chatbot_addressability subject body = spec_decision (compute_score subject body) := rfl
  rw [h]
  exact spec_decision_conf_cases (compute_score subject body)

/-- Witness for C10 at a concrete "Yes" input. -/
theorem chatbot_confidence_range_witness :
    (chatbot_addressability "question" "help").1 = "Yes" ∧
    1/2 ≤ (chatbot_addressability "question" "help").2.1 :=
  ⟨by decide, (chatbot_confidence_range "question" "help").2.2 (by decide)⟩

theorem maxOver_cons (t : List Char) (p : String × String × SubRules)
    (L : List (String × String × SubRules)) :
    maxOver t (p :: L) = max (rawScore t p) (maxOver t L) := rfl

theorem le_maxOver {t : List Char} {L : List (String × String × SubRules)}
    {p : String × String × SubRules} (h : p ∈ L) : rawScore t p ≤ maxOver t L := by
  induction L with
  | nil => cases h
  | cons q rest ih =>
    rw [maxOver_cons]
    rcases List.mem_cons.mp h with h1 | h2
    · subst h1
      exact le_max_left _ _
    · exact le_trans (ih h2) (le_max_right _ _)

theorem bestLoop_stable (t : List Char) (L : List (String × String × SubRules))
    (best : Option (String × String × String)) (bs : Nat)
    (h : ∀ p ∈ L, rawScore t p ≤ bs) : bestLoop t L best bs = (best, bs) := by
  induction L generalizing best bs with
  | nil => rfl
  | cons p rest ih =>
    unfold bestLoop
    rw [if_neg (by exact not_lt.mpr (h p (by simp)))]
    exact ih best bs (fun q hq => h q (by simp [hq]))

theorem bestLoop_finds (t : List Char) (L : List (String × String × SubRules)) :
    ∀ (best : Option (String × String × String)) (bs : Nat), bs < maxOver t L →
      ∃ p, L.find? (fun q => rawScore t q == maxOver t L) = some p ∧
        bestLoop t L best bs = (some (bestEntry t p), maxOver t L) := by
  induction L with
  | nil =>
    intro best bs h
    simp [maxOver] at h
  | cons p rest ih =>
    intro best bs h
    rw [maxOver_cons] at h ⊢
    by_cases hup : bs < rawScore t p
    · by_cases hrest : rawScore t p < maxOver t rest
      · have hmax : max (rawScore t p) (maxOver t rest) = maxOver t rest :=
          max_eq_right (le_of_lt hrest)
        rw [hmax]
        obtain ⟨q, hfind, hloop⟩ := ih (some (bestEntry t p)) (rawScore t p) hrest
        refine ⟨q, ?_, ?_⟩
        · rw [List.find?_cons_of_neg, hfind]
          simp only [beq_iff_eq]
          omega
        · unfold bestLoop
          rw [if_pos hup]
          exact hloop
      · have hle : maxOver t rest ≤ rawScore t p := not_lt.mp hrest
        have hmax : max (rawScore t p) (maxOver t rest) = rawScore t p := max_eq_left hle
        rw [hmax]
        refine ⟨p, ?_, ?_⟩
        · rw [List.find?_cons_of_pos]
          simp
        · unfold bestLoop
          rw [if_pos hup]
          exact bestLoop_stable t rest _ _ (fun q hq => le_trans (le_maxOver hq) hle)
    · have hple : rawScore t p ≤ bs := not_lt.mp hup
      have hrest : bs < maxOver t rest := by
        rcases max_cases (rawScore t p) (maxOver t rest) with ⟨he, _⟩ | ⟨he, _⟩
        · omega
        · omega
      have hmax : max (rawScore t p) (maxOver t rest) = maxOver t rest := by
        rcases max_cases (rawScore t p) (maxOver t rest) with ⟨he, hc⟩ | ⟨he, _⟩
        · omega
        · exact he
      rw [hmax]
      obtain ⟨q, hfind, hloop⟩ := ih best bs hrest
      refine ⟨q, ?_, ?_⟩
      · rw [List.find?_cons_of_neg, hfind]
        simp only [beq_iff_eq]
        omega
      · unfold bestLoop
        rw [if_neg hup]
        exact hloop

/-- C3: when some pair scores positively, `map_category` returns the
first pair attaining the maximum raw score, labelled "strong" exactly
when that winner has a strong hit, with confidence `min(1, raw/5)` for
the winning raw score. -/
theorem map_category_returns_best_scoring_pair (body : Option String)
    (p : String × String × SubRules)
    (h1 : firstBest (clean_text_basic body).toList = some p)
    (h2 : 0 < maxRaw (clean_text_basic body).toList) :
    rawScore (clean_text_basic body).toList p = maxRaw (clean_text_basic body).toList ∧
    map_category body =
      (p.1, p.2.1,
        if 0 < strongHits p.2.2 (clean_text_basic body).toList then "strong" else "weak",
        pyMin 1 ((maxRaw (clean_text_basic body).toList : ℚ) / 5)) := by
  obtain ⟨q, hq, hloop⟩ :=
    bestLoop_finds (clean_text_basic body).toList pairsL none 0 h2
  have hq' : firstBest (clean_text_basic body).toList = some q := hq
  have hpq : p = q := Option.some.inj (h1.symm.trans hq')
  subst hpq
  constructor
  · have hfound := List.find?_some hq
    simpa only [beq_iff_eq] using hfound
  · have hm : map_category body =
        (p.1, p.2.1,
          if 0 < strongHits p.2.2 (clean_text_basic body).toList then "strong" else "weak",
          pyMin 1 ((maxOver (clean_text_basic body).toList pairsL : ℚ) / 5)) := by
      unfold map_category
      rw [hloop]
      rfl
    exact hm

/-- Witness for C3 at the concrete body `"gift"`. -/
theorem map_category_returns_best_scoring_pair_witness :
    0 < maxRaw (clean_text_basic (some "gift")).toList ∧
    maxRaw (clean_text_basic (some "gift")).toList = 3 ∧
    (map_category (some "gift")).1 = "Anti-Bribery and Anti-Corruption (ABAC)" ∧
    (map_category (some "gift")).2.1 = "Gifts & Entertainment" ∧
    (map_category (some "gift")).2.2.1 = "strong" := by
  refine ⟨by decide, by decide, ?_, ?_, ?_⟩
  · have h := map_category_returns_best_scoring_pair (some "gift")
      (pairsL.get ⟨1, by decide⟩) (by decide) (by decide)
    rw [h.2]
    decide
  · have h := map_category_returns_best_scoring_pair (some "gift")
      (pairsL.get ⟨1, by decide⟩) (by decide) (by decide)
    rw [h.2]
    decide
  · have h := map_category_returns_best_scoring_pair (some "gift")
      (pairsL.get ⟨1, by decide⟩) (by decide) (by decide)
    rw [h.2]
    decide

/-- C6 (amended): when the maximum raw score is positive and attained by
two or more pairs, `map_category` returns the pair occurring first in
table order (and, being a pure function, the same one on every run).
For a zero maximum — attained by every pair on a matchless body — the
classifier instead returns the `Not Detected` sentinel, which is the
correction to the claim. -/
theorem map_category_tie_first_in_table_order (body : Option String)
    (p q r : String × String × SubRules)
    (_hp : p ∈ pairsL) (_hq : q ∈ pairsL) (_hne : p ≠ q)
    (_hrp : rawScore (clean_text_basic body).toList p = maxRaw (clean_text_basic body).toList)
    (_hrq : rawScore (clean_text_basic body).toList q = maxRaw (clean_text_basic body).toList)
    (hpos : 0 < maxRaw (clean_text_basic body).toList)
    (hfb : firstBest (clean_text_basic body).toList = some r) :
    (map_category body).1 = r.1 ∧ (map_category body).2.1 = r.2.1 := by
  obtain ⟨w, hw, hloop⟩ :=
    bestLoop_finds (clean_text_basic body).toList pairsL none 0 hpos
  have hw' : firstBest (clean_text_basic body).toList = some w := hw
  have hrw : r = w := Option.some.inj (hfb.symm.trans hw')
  subst hrw
  have hm : map_category body =
      (r.1, r.2.1,
        if 0 < strongHits r.2.2 (clean_text_basic body).toList then "strong" else "weak",
        pyMin 1 ((maxOver (clean_text_basic body).toList pairsL : ℚ) / 5)) := by
    unfold map_category
    rw [hloop]
    rfl
  rw [hm]
  exact ⟨rfl, rfl⟩

/-- Witness for C6 at the concrete body `"coi declaration"`, where the
`Gifts & Entertainment` pair (index 1) and the `COI Declaration` pair
(index 5) tie at the maximum raw score 3. -/
theorem map_category_tie_first_in_table_order_witness :
    pairsL.get ⟨1, by decide⟩ ≠ pairsL.get ⟨5, by decide⟩ ∧
    rawScore (clean_text_basic (some "coi declaration")).toList (pairsL.get ⟨1, by decide⟩)
        = maxRaw (clean_text_basic (some "coi declaration")).toList ∧
    rawScore (clean_text_basic (some "coi declaration")).toList (pairsL.get ⟨5, by decide⟩)
        = maxRaw (clean_text_basic (some "coi declaration")).toList ∧
    0 < maxRaw (clean_text_basic (some "coi declaration")).toList ∧
    (map_category (some "coi declaration")).1 = "Anti-Bribery and Anti-Corruption (ABAC)" ∧
    (map_category (some "coi declaration")).2.1 = "Gifts & Entertainment" := by
  refine ⟨by decide, by decide, by decide, by decide, ?_, ?_⟩
  · have h := map_category_tie_first_in_table_order (some "coi declaration")
      (pairsL.get ⟨1, by decide⟩) (pairsL.get ⟨5, by decide⟩) (pairsL.get ⟨1, by decide⟩)
      (by decide) (by decide) (by decide) (by decide) (by decide) (by decide) (by decide)
    exact h.1.trans (by decide)
  · have h := map_category_tie_first_in_table_order (some "coi declaration")
      (pairsL.get ⟨1, by decide⟩) (pairsL.get ⟨5, by decide⟩) (pairsL.get ⟨1, by decide⟩)
      (by decide) (by decide) (by decide) (by decide) (by decide) (by decide) (by decide)
    exact h.2.trans (by decide)

/-- Counterexample to C6 as frozen: for the empty body every pair
attains the (zero) maximum raw score, yet the classifier returns the
`Not Detected` sentinel rather than the first pair of the table. -/
theorem map_category_tie_zero_counterexample :
    pairsL.get ⟨0, by decide⟩ ≠ pairsL.get ⟨1, by decide⟩ ∧
    rawScore (clean_text_basic (some "")).toList (pairsL.get ⟨0, by decide⟩)
        = maxRaw (clean_text_basic (some "")).toList ∧
    rawScore (clean_text_basic (some "")).toList (pairsL.get ⟨1, by decide⟩)
        = maxRaw (clean_text_basic (some "")).toList ∧
    (map_category (some "")).1 ≠ (pairsL.get ⟨0, by decide⟩).1 ∧
    (map_category (some "")).2.1 ≠ (pairsL.get ⟨0, by decide⟩).2.1 := by
  exact ⟨by decide, by decide, by decide, by decide, by decide⟩

theorem mem_dedupAux {r : EmailRecord} :
    ∀ {seen l : List EmailRecord}, r ∈ dedupAux seen l → r ∈ l := by
  intro seen l
  induction l generalizing seen with
  | nil => intro h; cases h
  | cons x rs ih =>
    intro h
    unfold dedupAux at h
    by_cases hx : x ∈ seen
    · rw [if_pos hx] at h
      exact List.mem_cons_of_mem x (ih h)
    · rw [if_neg hx] at h
      rcases List.mem_cons.mp h with h1 | h2
      · exact h1 ▸ List.mem_cons_self x rs
      · exact List.mem_cons_of_mem x (ih h2)

theorem preprocess_mem_props (df : List EmailRecord) (r : EmailRecord)
    (h : r ∈ preprocess df) :
    ¬(r.sentAt = none ∧ r.receivedAt = none) ∧
    ∃ ts : Timestamp, r.receivedAt = some ts ∧ ts.year = 2025 := by
  unfold preprocess at h
  have h4 := (List.mem_filter.mp h).1
  have h3 := mem_dedupAux h4
  have h3p := (List.mem_filter.mp h3).2
  have hyear : ∃ ts : Timestamp, r.receivedAt = some ts ∧ ts.year = 2025 := by
    cases hra : r.receivedAt with
    | none => rw [hra] at h3p; simp at h3p
    | some ts =>
      rw [hra] at h3p
      simp only [beq_iff_eq] at h3p
      exact ⟨ts, rfl, h3p⟩
  refine ⟨?_, hyear⟩
  rintro ⟨-, hrn⟩
  obtain ⟨ts, hts, -⟩ := hyear
  rw [hrn] at hts
  cases hts

/-- C5: the temporal normalizer maps any parsed timestamp whose year
falls outside `[2000, 2030]` to absent, and no record in the output of
the preprocessor has both timestamps absent (records with both absent
are dropped). -/
theorem clean_datetime_year_guard_and_drop :
    (∀ ts : Timestamp, (ts.year < 2000 ∨ 2030 < ts.year) →
      clean_datetime (some ts) = none) ∧
    (∀ (df : List EmailRecord) (r : EmailRecord), r ∈ preprocess df →
      ¬(r.sentAt = none ∧ r.receivedAt = none)) := by
  constructor
  · intro ts hy
    have hcond : (decide (ts.year < 2000) || decide (2030 < ts.year)) = true := by
      rcases hy with h | h
      · simp [h]
      · simp [h]
    simp [clean_datetime, hcond]
  · intro df r h
    exact (preprocess_mem_props df r h).1

/-- Witness for C5: years 1990 and 2099 are masked to absent, and a
record surviving preprocessing indeed has a timestamp present. -/
theorem clean_datetime_year_guard_and_drop_witness :
    clean_datetime (some ⟨1990, 0⟩) = none ∧
    clean_datetime (some ⟨2099, 0⟩) = none ∧
    (⟨some ⟨2025, 0⟩, some ⟨2025, 1⟩, some "hello", some ""⟩ : EmailRecord) ∈
      preprocess [⟨some ⟨2025, 0⟩, some ⟨2025, 1⟩, some "hello", some ""⟩] ∧
    ¬((⟨some ⟨2025, 0⟩, some ⟨2025, 1⟩, some "hello", some ""⟩ : EmailRecord).sentAt = none ∧
      (⟨some ⟨2025, 0⟩, some ⟨2025, 1⟩, some "hello", some ""⟩ : EmailRecord).receivedAt = none) :=
  ⟨clean_datetime_year_guard_and_drop.1 ⟨1990, 0⟩ (Or.inl (by decide)),
   clean_datetime_year_guard_and_drop.1 ⟨2099, 0⟩ (Or.inr (by decide)),
   by decide,
   clean_datetime_year_guard_and_drop.2
     [⟨some ⟨2025, 0⟩, some ⟨2025, 1⟩, some "hello", some ""⟩]
     ⟨some ⟨2025, 0⟩, some ⟨2025, 1⟩, some "hello", some ""⟩ (by decide)⟩

/-- C9: every record output by the preprocessor carries a present
`received_at` whose year is the hard-coded reporting year 2025; hence a
record whose normalized `received_at` is absent — e.g. one whose only
valid timestamp is `sent_at` — never appears in the output even though
it survives the both-timestamps-absent rule. -/
theorem preprocess_received_year_invariant :
    (∀ (df : List EmailRecord) (r : EmailRecord), r ∈ preprocess df →
      ∃ ts : Timestamp, r.receivedAt = some ts ∧ ts.year = 2025) ∧
    (∀ (df : List EmailRecord) (r : EmailRecord),
      clean_datetime r.receivedAt = none → cleanRecord r ∉ preprocess df) := by
  constructor
  · intro df r h
    exact (preprocess_mem_props df r h).2
  · intro df r hnone hmem
    obtain ⟨ts, hts, -⟩ := (preprocess_mem_props df (cleanRecord r) hmem).2
    have : clean_datetime r.receivedAt = some ts := hts
    rw [hnone] at this
    cases this

/-- Witness for C9: a concrete surviving record, and a concrete record
with valid `sent_at` but out-of-range `received_at` that is dropped. -/
theorem preprocess_received_year_invariant_witness :
    (⟨some ⟨2025, 3⟩, some ⟨2025, 4⟩, some "budget", some "body"⟩ : EmailRecord) ∈
      preprocess [⟨some ⟨2025, 3⟩, some ⟨2025, 4⟩, some "budget", some "body"⟩] ∧
    (∃ ts : Timestamp,
      (⟨some ⟨2025, 3⟩, some ⟨2025, 4⟩, some "budget", some "body"⟩ : EmailRecord).receivedAt
          = some ts ∧ ts.year = 2025) ∧
    cleanRecord (⟨some ⟨2025, 3⟩, some ⟨1990, 0⟩, some "x", some "y"⟩ : EmailRecord) ∉
      preprocess [⟨some ⟨2025, 3⟩, some ⟨1990, 0⟩, some "x", some "y"⟩] :=
  ⟨by decide,
   preprocess_received_year_invariant.1
     [⟨some ⟨2025, 3⟩, some ⟨2025, 4⟩, some "budget", some "body"⟩]
     ⟨some ⟨2025, 3⟩, some ⟨2025, 4⟩, some "budget", some "body"⟩ (by decide),
   preprocess_received_year_invariant.2
     [⟨some ⟨2025, 3⟩, some ⟨1990, 0⟩, some "x", some "y"⟩]
     ⟨some ⟨2025, 3⟩, some ⟨1990, 0⟩, some "x", some "y"⟩ (by decide)⟩

theorem mem_collapseWs (b : Bool) (l : List Char) (c : Char)
    (h : c ∈ collapseWs b l) : c = ' ' ∨ (c ∈ l ∧ isPySpace c = false) := by
  induction l generalizing b with
  | nil => cases h
  | cons x t ih =>
    unfold collapseWs at h
    by_cases hx : isPySpace x = true
    · rw [if_pos hx] at h
      cases b with
      | true =>
        rcases ih true h with h1 | ⟨h2, h3⟩
        · exact Or.inl h1
        · exact Or.inr ⟨List.mem_cons_of_mem x h2, h3⟩
      | false =>
        rcases List.mem_cons.mp h with h1 | h2
        · exact Or.inl h1
        · rcases ih true h2 with h1 | ⟨h3, h4⟩
          · exact Or.inl h1
          · exact Or.inr ⟨List.mem_cons_of_mem x h3, h4⟩
    · rw [if_neg hx] at h
      rcases List.mem_cons.mp h with h1 | h2
      · refine Or.inr ⟨?_, ?_⟩
        · rw [h1]
          exact List.mem_cons_self x t
        · rw [h1]
          simpa using hx
      · rcases ih false h2 with h1 | ⟨h3, h4⟩
        · exact Or.inl h1
        · exact Or.inr ⟨List.mem_cons_of_mem x h3, h4⟩

theorem headNotSpace_collapseWs_true (l : List Char) :
    headNotSpace (collapseWs true l) = true := by
  induction l with
  | nil => rfl
  | cons x t ih =>
    unfold collapseWs
    by_cases hx : isPySpace x = true
    · rw [if_pos hx]
      exact ih
    · rw [if_neg hx]
      have hx' : isPySpace x = false := by simpa using hx
      simp [headNotSpace, hx']

theorem noSpaceRun_collapseWs (b : Bool) (l : List Char) :
    noSpaceRun (collapseWs b l) = true := by
  induction l generalizing b with
  | nil => rfl
  | cons x t ih =>
    unfold collapseWs
    by_cases hx : isPySpace x = true
    · rw [if_pos hx]
      cases b with
      | true => exact ih true
      | false =>
        simp only [noSpaceRun, Bool.and_eq_true, Bool.or_eq_true]
        exact ⟨Or.inr (headNotSpace_collapseWs_true t), ih true⟩
    · rw [if_neg hx]
      simp only [noSpaceRun, Bool.and_eq_true, Bool.or_eq_true]
      exact ⟨Or.inl (by simpa using hx), ih false⟩

theorem collapseWs_ne_nil (b : Bool) (l : List Char) (hne : l ≠ [])
    (hl : lastNotSpace l = true) : collapseWs b l ≠ [] := by
  induction l generalizing b with
  | nil => exact absurd rfl hne
  | cons x t ih =>
    cases t with
    | nil =>
      have hx : isPySpace x = false := by
        simpa [lastNotSpace] using hl
      unfold collapseWs
      rw [if_neg (by rw [hx]; exact Bool.false_ne_true)]
      exact List.cons_ne_nil x _
    | cons y t' =>
      have hl' : lastNotSpace (y :: t') = true := hl
      unfold collapseWs
      by_cases hx : isPySpace x = true
      · rw [if_pos hx]
        cases b with
        | true => exact ih true (List.cons_ne_nil y t') hl'
        | false => exact List.cons_ne_nil _ _
      · rw [if_neg hx]
        exact List.cons_ne_nil _ _

theorem lastNotSpace_collapseWs (b : Bool) (l : List Char)
    (hl : lastNotSpace l = true) : lastNotSpace (collapseWs b l) = true := by
  induction l generalizing b with
  | nil => rfl
  | cons x t ih =>
    cases t with
    | nil =>
      have hx : isPySpace x = false := by
        simpa [lastNotSpace] using hl
      unfold collapseWs
      rw [if_neg (by rw [hx]; exact Bool.false_ne_true)]
      simpa [collapseWs, lastNotSpace] using hx
    | cons y t' =>
      have hl' : lastNotSpace (y :: t') = true := hl
      have hX : ∀ b', lastNotSpace (collapseWs b' (y :: t')) = true := fun b' => ih b' hl'
      have hXne : ∀ b', collapseWs b' (y :: t') ≠ [] := fun b' =>
        collapseWs_ne_nil b' (y :: t') (List.cons_ne_nil y t') hl'
      unfold collapseWs
      by_cases hx : isPySpace x = true
      · rw [if_pos hx]
        cases b with
        | true => exact hX true
        | false =>
          obtain ⟨z, m, hzm⟩ := List.exists_cons_of_ne_nil (hXne true)
          rw [hzm]
          show lastNotSpace (z :: m) = true
          rw [← hzm]
          exact hX true
      · rw [if_neg hx]
        obtain ⟨z, m, hzm⟩ := List.exists_cons_of_ne_nil (hXne false)
        rw [hzm]
        show lastNotSpace (z :: m) = true
        rw [← hzm]
        exact hX false

theorem headNotSpace_collapseWs_false (l : List Char)
    (hh : headNotSpace l = true) : headNotSpace (collapseWs false l) = true := by
  cases l with
  | nil => rfl
  | cons x t =>
    have hx : isPySpace x = false := by
      simpa [headNotSpace] using hh
    unfold collapseWs
    rw [if_neg (by rw [hx]; exact Bool.false_ne_true)]
    simpa [headNotSpace] using hx

theorem collapseWs_eq_self (l : List Char)
    (hsp : ∀ c ∈ l, isPySpace c = true → c = ' ')
    (hnr : noSpaceRun l = true) :
    collapseWs false l = l ∧ (headNotSpace l = true → collapseWs true l = l) := by
  induction l with
  | nil => exact ⟨rfl, fun _ => rfl⟩
  | cons x t ih =>
    have hnr' : ((!isPySpace x || headNotSpace t) && noSpaceRun t) = true := hnr
    rw [Bool.and_eq_true, Bool.or_eq_true] at hnr'
    have iht := ih (fun c hc => hsp c (List.mem_cons_of_mem x hc)) hnr'.2
    by_cases hx : isPySpace x = true
    · have hx' : x = ' ' := hsp x (List.mem_cons_self x t) hx
      have hht : headNotSpace t = true := by
        rcases hnr'.1 with h1 | h2
        · rw [Bool.not_eq_true'] at h1
          rw [h1] at hx
          cases hx
        · exact h2
      constructor
      · unfold collapseWs
        rw [if_pos hx, iht.2 hht, hx']
        rfl
      · intro hh
        have : (!isPySpace x) = true := by simpa [headNotSpace] using hh
        rw [Bool.not_eq_true'] at this
        rw [this] at hx
        cases hx
    · constructor
      · unfold collapseWs
        rw [if_neg hx, iht.1]
      · intro _
        unfold collapseWs
        rw [if_neg hx, iht.1]

theorem headNotSpace_dropWhile (l : List Char) :
    headNotSpace (l.dropWhile isPySpace) = true := by
  induction l with
  | nil => rfl
  | cons x t ih =>
    rw [List.dropWhile_cons]
    by_cases hx : isPySpace x = true
    · rw [if_pos hx]
      exact ih
    · rw [if_neg hx]
      simpa [headNotSpace] using hx

theorem mem_dropWhileWs {c : Char} : ∀ {l : List Char},
    c ∈ l.dropWhile isPySpace → c ∈ l := by
  intro l
  induction l with
  | nil => intro h; cases h
  | cons x t ih =>
    intro h
    rw [List.dropWhile_cons] at h
    by_cases hx : isPySpace x = true
    · rw [if_pos hx] at h
      exact List.mem_cons_of_mem x (ih h)
    · rw [if_neg hx] at h
      exact h

theorem mem_dropEndWs {c : Char} : ∀ {l : List Char}, c ∈ dropEndWs l → c ∈ l := by
  intro l
  induction l with
  | nil => intro h; cases h
  | cons x t ih =>
    intro h
    unfold dropEndWs at h
    cases hd : dropEndWs t with
    | nil =>
      rw [hd] at h
      by_cases hx : isPySpace x = true
      · rw [if_pos hx] at h
        cases h
      · rw [if_neg hx] at h
        rcases List.mem_cons.mp h with h1 | h2
        · rw [h1]
          exact List.mem_cons_self x t
        · cases h2
    | cons d m =>
      rw [hd] at h
      rcases List.mem_cons.mp h with h1 | h2
      · rw [h1]
        exact List.mem_cons_self x t
      · exact List.mem_cons_of_mem x (ih (hd ▸ h2))

theorem lastNotSpace_dropEndWs (l : List Char) :
    lastNotSpace (dropEndWs l) = true := by
  induction l with
  | nil => rfl
  | cons x t ih =>
    unfold dropEndWs
    cases hd : dropEndWs t with
    | nil =>
      by_cases hx : isPySpace x = true
      · rw [if_pos hx]
        rfl
      · rw [if_neg hx]
        simpa [lastNotSpace] using hx
    | cons d m =>
      show lastNotSpace (x :: d :: m) = true
      show lastNotSpace (d :: m) = true
      rw [← hd]
      exact ih

theorem headNotSpace_dropEndWs (l : List Char)
    (hh : headNotSpace l = true) : headNotSpace (dropEndWs l) = true := by
  cases l with
  | nil => rfl
  | cons x t =>
    have hx : isPySpace x = false := by simpa [headNotSpace] using hh
    unfold dropEndWs
    cases dropEndWs t with
    | nil =>
      rw [if_neg (by rw [hx]; exact Bool.false_ne_true)]
      simpa [headNotSpace] using hx
    | cons d m =>
      simpa [headNotSpace] using hx

theorem dropEndWs_eq_self : ∀ {l : List Char}, lastNotSpace l = true → dropEndWs l = l := by
  intro l
  induction l with
  | nil => intro _; rfl
  | cons x t ih =>
    intro hl
    cases t with
    | nil =>
      have hx : isPySpace x = false := by simpa [lastNotSpace] using hl
      unfold dropEndWs
      rw [if_neg (by rw [hx]; exact Bool.false_ne_true)]
      rfl
    | cons y t' =>
      have hl' : lastNotSpace (y :: t') = true := hl
      unfold dropEndWs
      rw [ih hl']

theorem dropWhileWs_eq_self {l : List Char} (hh : headNotSpace l = true) :
    l.dropWhile isPySpace = l := by
  cases l with
  | nil => rfl
  | cons x t =>
    have hx : isPySpace x = false := by simpa [headNotSpace] using hh
    rw [List.dropWhile_cons, if_neg (by rw [hx]; exact Bool.false_ne_true)]

theorem headNotSpace_stripWs (l : List Char) : headNotSpace (stripWs l) = true :=
  headNotSpace_dropEndWs _ (headNotSpace_dropWhile l)

theorem lastNotSpace_stripWs (l : List Char) : lastNotSpace (stripWs l) = true :=
  lastNotSpace_dropEndWs _

theorem mem_stripWs {c : Char} {l : List Char} (h : c ∈ stripWs l) : c ∈ l :=
  mem_dropWhileWs (mem_dropEndWs h)

theorem stripWs_eq_self {l : List Char} (hh : headNotSpace l = true)
    (hl : lastNotSpace l = true) : stripWs l = l := by
  unfold stripWs
  rw [dropWhileWs_eq_self hh, dropEndWs_eq_self hl]

theorem isPySpace_iff (c : Char) : isPySpace c = true ↔
    ((9 ≤ c.toNat ∧ c.toNat ≤ 13) ∨ (28 ≤ c.toNat ∧ c.toNat ≤ 32) ∨
     c.toNat = 0x85 ∨ c.toNat = 0xa0 ∨ c.toNat = 0x1680 ∨
     (0x2000 ≤ c.toNat ∧ c.toNat ≤ 0x200a) ∨ c.toNat = 0x2028 ∨
     c.toNat = 0x2029 ∨ c.toNat = 0x202f ∨ c.toNat = 0x205f ∨
     c.toNat = 0x3000) := by
  simp [isPySpace]
  omega

theorem isWordChar_iff (c : Char) : isWordChar c = true ↔
    ((48 ≤ c.toNat ∧ c.toNat ≤ 57) ∨ (65 ≤ c.toNat ∧ c.toNat ≤ 90) ∨
     (97 ≤ c.toNat ∧ c.toNat ≤ 122) ∨ c.toNat = 95) := by
  simp [isWordChar]
  omega

theorem allowedChatbot_iff (c : Char) : allowedChatbot c = true ↔
    ((97 ≤ c.toNat ∧ c.toNat ≤ 122) ∨ (48 ≤ c.toNat ∧ c.toNat ≤ 57) ∨
     c.toNat = 64 ∨ c.toNat = 46 ∨ c.toNat = 95 ∨ c.toNat = 47 ∨
     c.toNat = 37 ∨ c.toNat = 36 ∨ c.toNat = 32 ∨ c.toNat = 45) := by
  simp [allowedChatbot]
  omega

theorem goodBasic_iff (c : Char) : goodBasic c = true ↔
    ((48 ≤ c.toNat ∧ c.toNat ≤ 57) ∨ (97 ≤ c.toNat ∧ c.toNat ≤ 122) ∨
     c.toNat = 95 ∨ c.toNat = 32) := by
  simp [goodBasic]
  omega

theorem cleanCore_good (h : List Char → List Char) (good : Char → Bool)
    (Hout : ∀ l, (∀ c ∈ l, isPySpace c = true → c = ' ') →
        (∀ c ∈ l, ¬(65 ≤ c.toNat ∧ c.toNat ≤ 90)) → ∀ c ∈ h l, good c = true)
    (l : List Char) : ∀ c ∈ cleanCore h l, good c = true := by
  intro c hc
  have hc3 : c ∈ h (collapseWs false (l.map lowerChar)) := mem_stripWs hc
  refine Hout _ ?_ ?_ c hc3
  · intro d hd hds
    rcases mem_collapseWs _ _ _ hd with h1 | ⟨_, h2s⟩
    · exact h1
    · rw [hds] at h2s
      cases h2s
  · intro d hd
    rcases mem_collapseWs _ _ _ hd with h1 | ⟨h2, _⟩
    · rw [h1]
      decide
    · obtain ⟨e, _, rfl⟩ := List.mem_map.mp h2
      exact lowerChar_notUpper e

theorem cleanCore_eq_collapse (h : List Char → List Char) (good : Char → Bool)
    (Hid : ∀ l, (∀ c ∈ l, good c = true) → h l = l)
    (Hgood_notUpper : ∀ c, good c = true → ¬(65 ≤ c.toNat ∧ c.toNat ≤ 90))
    (Hgood_sp : good ' ' = true)
    (m : List Char) (hg : ∀ c ∈ m, good c = true)
    (hh : headNotSpace m = true) (hl : lastNotSpace m = true) :
    cleanCore h m = collapseWs false m := by
  unfold cleanCore
  rw [map_lowerChar_eq_self (fun c hc => Hgood_notUpper c (hg c hc))]
  have hcolgood : ∀ c ∈ collapseWs false m, good c = true := by
    intro c hc
    rcases mem_collapseWs _ _ _ hc with h1 | ⟨h2, _⟩
    · rw [h1]
      exact Hgood_sp
    · exact hg c h2
  rw [Hid _ hcolgood]
  exact stripWs_eq_self (headNotSpace_collapseWs_false m hh) (lastNotSpace_collapseWs false m hl)

theorem cleanCore_eq_self (h : List Char → List Char) (good : Char → Bool)
    (Hid : ∀ l, (∀ c ∈ l, good c = true) → h l = l)
    (Hgood_space : ∀ c, good c = true → isPySpace c = true → c = ' ')
    (Hgood_notUpper : ∀ c, good c = true → ¬(65 ≤ c.toNat ∧ c.toNat ≤ 90))
    (Hgood_sp : good ' ' = true)
    (m : List Char) (hg : ∀ c ∈ m, good c = true)
    (hh : headNotSpace m = true) (hl : lastNotSpace m = true)
    (hnr : noSpaceRun m = true) :
    cleanCore h m = m := by
  rw [cleanCore_eq_collapse h good Hid Hgood_notUpper Hgood_sp m hg hh hl]
  exact (collapseWs_eq_self m (fun c hc hs => Hgood_space c (hg c hc) hs) hnr).1

theorem cleanCore_twice_fix (h : List Char → List Char) (good : Char → Bool)
    (Hout : ∀ l, (∀ c ∈ l, isPySpace c = true → c = ' ') →
        (∀ c ∈ l, ¬(65 ≤ c.toNat ∧ c.toNat ≤ 90)) → ∀ c ∈ h l, good c = true)
    (Hid : ∀ l, (∀ c ∈ l, good c = true) → h l = l)
    (Hgood_space : ∀ c, good c = true → isPySpace c = true → c = ' ')
    (Hgood_notUpper : ∀ c, good c = true → ¬(65 ≤ c.toNat ∧ c.toNat ≤ 90))
    (Hgood_sp : good ' ' = true)
    (l : List Char) :
    cleanCore h (cleanCore h (cleanCore h l)) = cleanCore h (cleanCore h l) := by
  have hAgood : ∀ c ∈ cleanCore h l, good c = true := cleanCore_good h good Hout l
  have hAh : headNotSpace (cleanCore h l) = true := headNotSpace_stripWs _
  have hAl : lastNotSpace (cleanCore h l) = true := lastNotSpace_stripWs _
  have hB : cleanCore h (cleanCore h l) = collapseWs false (cleanCore h l) :=
    cleanCore_eq_collapse h good Hid Hgood_notUpper Hgood_sp _ hAgood hAh hAl
  rw [hB]
  have hBgood : ∀ c ∈ collapseWs false (cleanCore h l), good c = true := by
    intro c hc
    rcases mem_collapseWs _ _ _ hc with h1 | ⟨h2, _⟩
    · rw [h1]
      exact Hgood_sp
    · exact hAgood c h2
  exact cleanCore_eq_self h good Hid Hgood_space Hgood_notUpper Hgood_sp _
    hBgood
    (headNotSpace_collapseWs_false _ hAh)
    (lastNotSpace_collapseWs false _ hAl)
    (noSpaceRun_collapseWs false _)

theorem replBasic_out_good (l : List Char)
    (hsp : ∀ c ∈ l, isPySpace c = true → c = ' ')
    (hnu : ∀ c ∈ l, ¬(65 ≤ c.toNat ∧ c.toNat ≤ 90)) :
    ∀ c ∈ List.map replBasic l, goodBasic c = true := by
  intro c hc
  obtain ⟨d, hd, rfl⟩ := List.mem_map.mp hc
  unfold replBasic
  by_cases hcond : (isWordChar d || isPySpace d) = true
  · rw [if_pos hcond]
    have hcond' : isWordChar d = true ∨ isPySpace d = true := by simpa using hcond
    rcases hcond' with hw | hs
    · rw [goodBasic_iff]
      have hw' := (isWordChar_iff d).mp hw
      have hnu' := hnu d hd
      omega
    · rw [hsp d hd hs]
      decide
  · rw [if_neg hcond]
    decide

theorem replBasic_id_on_good (l : List Char)
    (hg : ∀ c ∈ l, goodBasic c = true) : List.map replBasic l = l := by
  induction l with
  | nil => rfl
  | cons x t ih =>
    have hx := (goodBasic_iff x).mp (hg x (List.mem_cons_self x t))
    have hfix : replBasic x = x := by
      unfold replBasic
      rw [if_pos]
      rw [Bool.or_eq_true, isWordChar_iff, isPySpace_iff]
      omega
    rw [List.map_cons, hfix, ih (fun c hc => hg c (List.mem_cons_of_mem x hc))]

theorem goodBasic_space (c : Char) (hg : goodBasic c = true)
    (hs : isPySpace c = true) : c = ' ' := by
  have h1 := (goodBasic_iff c).mp hg
  have h2 := (isPySpace_iff c).mp hs
  refine char_eq_of_toNat_eq (show c.toNat = 32 from ?_)
  omega

theorem goodBasic_notUpper (c : Char) (hg : goodBasic c = true) :
    ¬(65 ≤ c.toNat ∧ c.toNat ≤ 90) := by
  have h1 := (goodBasic_iff c).mp hg
  omega

theorem allowedChatbot_out_good (l : List Char)
    (_hsp : ∀ c ∈ l, isPySpace c = true → c = ' ')
    (_hnu : ∀ c ∈ l, ¬(65 ≤ c.toNat ∧ c.toNat ≤ 90)) :
    ∀ c ∈ List.filter allowedChatbot l, allowedChatbot c = true := by
  intro c hc
  exact (List.mem_filter.mp hc).2

theorem allowedChatbot_id_on_good (l : List Char)
    (hg : ∀ c ∈ l, allowedChatbot c = true) : List.filter allowedChatbot l = l :=
  List.filter_eq_self.mpr hg

theorem allowedChatbot_space (c : Char) (hg : allowedChatbot c = true)
    (hs : isPySpace c = true) : c = ' ' := by
  have h1 := (allowedChatbot_iff c).mp hg
  have h2 := (isPySpace_iff c).mp hs
  refine char_eq_of_toNat_eq (show c.toNat = 32 from ?_)
  omega

theorem allowedChatbot_notUpper (c : Char) (hg : allowedChatbot c = true) :
    ¬(65 ≤ c.toNat ∧ c.toNat ≤ 90) := by
  have h1 := (allowedChatbot_iff c).mp hg
  omega

theorem cleanBasic_twice_fix (l : List Char) :
    cleanCore (List.map replBasic) (cleanCore (List.map replBasic)
        (cleanCore (List.map replBasic) l))
      = cleanCore (List.map replBasic) (cleanCore (List.map replBasic) l) :=
  cleanCore_twice_fix (List.map replBasic) goodBasic
    replBasic_out_good replBasic_id_on_good goodBasic_space goodBasic_notUpper
    (by decide) l

theorem cleanChat_twice_fix (l : List Char) :
    cleanCore (List.filter allowedChatbot) (cleanCore (List.filter allowedChatbot)
        (cleanCore (List.filter allowedChatbot) l))
      = cleanCore (List.filter allowedChatbot) (cleanCore (List.filter allowedChatbot) l) :=
  cleanCore_twice_fix (List.filter allowedChatbot) allowedChatbot
    allowedChatbot_out_good allowedChatbot_id_on_good allowedChatbot_space
    allowedChatbot_notUpper (by decide) l

/-- C2 (amended): neither normalizer is idempotent, but each reaches a
fixed point after two applications: a third application changes nothing.
A single application is not idempotent because the punctuation
substitution (basic) or removal (chatbot) runs after whitespace
collapsing and can create new runs of adjacent spaces, which only the
next application's collapse removes. -/
theorem cleaners_twice_reach_fixed_point (x : String) :
    clean_text_basic (some (clean_text_basic (some (clean_text_basic (some x)))))
      = clean_text_basic (some (clean_text_basic (some x))) ∧
    clean_text_chatbot (some (clean_text_chatbot (some (clean_text_chatbot (some x)))))
      = clean_text_chatbot (some (clean_text_chatbot (some x))) :=
  ⟨congrArg String.mk (cleanBasic_twice_fix x.toList),
   congrArg String.mk (cleanChat_twice_fix x.toList)⟩

/-- Counterexample to C2 as frozen: one application of each normalizer
is not idempotent (`"a!!b"` cleans to `"a  b"` and again to `"a b"`;
`"a ! b"` likewise for the chatbot cleaner). -/
theorem cleaners_not_idempotent_counterexample :
    clean_text_basic (some (clean_text_basic (some "a!!b")))
        ≠ clean_text_basic (some "a!!b") ∧
    clean_text_basic (some "a!!b") = "a  b" ∧
    clean_text_chatbot (some (clean_text_chatbot (some "a ! b")))
        ≠ clean_text_chatbot (some "a ! b") ∧
    clean_text_chatbot (some "a ! b") = "a  b" := by
  exact ⟨by decide, by decide, by decide, by decide⟩
